import Mathlib

/-!
Verification of the ray tracer in `src/main.rs` (a minimal offline renderer:
one primary ray per pixel, analytic sphere intersection, nearest-hit
resolution, hard shadows, Lambertian shading).

The `f32` arithmetic of the source is modelled by the real numbers `ℝ`
(exact arithmetic, no rounding); every definition is a direct transcription
of the corresponding Rust item and keeps its name where Lean allows it.
A second, small model (`F32` below) refines the real-number model with the
IEEE-754 NaN-propagation behaviour of `f32` comparisons, which is needed to
settle the error-handling claim about `partial_cmp(..).unwrap()`.
-/

namespace Raytrace

/-- Three real components; models both `nalgebra::Vector3<f32>` and
`nalgebra::Point3<f32>` (the source freely converts between them via
point/vector affine arithmetic, which agrees componentwise). -/
structure Vec3 where
  x : ℝ
  y : ℝ
  z : ℝ

/-- Componentwise addition (`Point3 + Vector3`, `Vector3 + Vector3`). -/
def Vec3.add (v w : Vec3) : Vec3 := ⟨v.x + w.x, v.y + w.y, v.z + w.z⟩

/-- Componentwise subtraction (`Point3 - Point3 = Vector3`, etc.). -/
def Vec3.sub (v w : Vec3) : Vec3 := ⟨v.x - w.x, v.y - w.y, v.z - w.z⟩

instance : Add Vec3 := ⟨Vec3.add⟩

instance : Sub Vec3 := ⟨Vec3.sub⟩

/-- Scalar multiple (`scalar * vector` / `vector * scalar` in nalgebra). -/
def Vec3.smul (r : ℝ) (v : Vec3) : Vec3 := ⟨r * v.x, r * v.y, r * v.z⟩

/-- `Vector3::dot`. -/
def Vec3.dot (v w : Vec3) : ℝ := v.x * w.x + v.y * w.y + v.z * w.z

/-- `Vector3::cross` (used by nalgebra's look-at construction). -/
def Vec3.cross (v w : Vec3) : Vec3 :=
  ⟨v.y * w.z - v.z * w.y, v.z * w.x - v.x * w.z, v.x * w.y - v.y * w.x⟩

/-- `Vector3::norm`: the Euclidean length. -/
noncomputable def Vec3.norm (v : Vec3) : ℝ := Real.sqrt (v.dot v)

/-- `Vector3::normalize`: componentwise division by the length.
(For the zero vector Lean's `x / 0 = 0` convention yields the zero vector;
the `f32` code would produce NaN there — the NaN-aware model below covers
that regime.) -/
noncomputable def Vec3.normalize (v : Vec3) : Vec3 :=
  ⟨v.x / v.norm, v.y / v.norm, v.z / v.norm⟩

/-- Sum of a list of vectors (componentwise). -/
def vsum : List Vec3 → Vec3
  | [] => ⟨0, 0, 0⟩
  | v :: vs => v + vsum vs

/-- `const SHADOW_BIAS: f32 = 0.0002;` (main.rs line 6). -/
noncomputable def SHADOW_BIAS : ℝ := 0.0002

/-- `struct Hit { distance, normal }` (main.rs lines 12-16). -/
structure Hit where
  distance : ℝ
  normal : Vec3

/-- `struct Ray { origin, direction }` (main.rs lines 18-22). -/
structure Ray where
  origin : Vec3
  direction : Vec3

/-- `struct Light { position, intensity }` (main.rs lines 24-28). -/
structure Light where
  position : Vec3
  intensity : ℝ

/-- `struct Sphere { position, radius }` (main.rs lines 30-34). -/
structure Sphere where
  position : Vec3
  radius : ℝ

/-- `struct Camera { position, look_at }` (main.rs lines 36-40). -/
structure Camera where
  position : Vec3
  look_at : Vec3

/-- `enum Shape { Sphere(Sphere) }` (main.rs lines 42-45). -/
inductive Shape where
  | sphere : Sphere → Shape

/-- `struct Material { color }` (main.rs lines 47-50). -/
structure Material where
  color : Vec3

/-- `struct Object { shape, material }` (main.rs lines 52-56). -/
structure Object where
  shape : Shape
  material : Material

/-- `struct Scene { objects, camera, lights }` (main.rs lines 58-63). -/
structure Scene where
  objects : List Object
  camera : Camera
  lights : List Light

/-- `Ray::point_at_distance` (main.rs lines 70-72):
`self.origin + distance * self.direction`. -/
def Ray.point_at_distance (ray : Ray) (distance : ℝ) : Vec3 :=
  ray.origin + Vec3.smul distance ray.direction

/-- The discriminant `b*b - 4.0*a*c` of the ray/sphere quadratic, with
`a`, `b`, `c` exactly as computed in `Sphere::intersect`
(main.rs lines 109-113). -/
def sphereDiscriminant (sp : Sphere) (ray : Ray) : ℝ :=
  let oc := ray.origin - sp.position
  let a := ray.direction.dot ray.direction
  let b := 2 * oc.dot ray.direction
  let c := oc.dot oc - sp.radius * sp.radius
  b * b - 4 * a * c

/-- `impl Trace for Sphere` (main.rs lines 107-136), transcribed literally:
reject a non-positive discriminant, otherwise take `t0` unless it is
negative, else `t1`; the hit normal is the normalised radius vector. -/
noncomputable def Sphere.intersect (sp : Sphere) (ray : Ray) : Option Hit :=
  let oc := ray.origin - sp.position
  let a := ray.direction.dot ray.direction
  let b := 2 * oc.dot ray.direction
  let c := oc.dot oc - sp.radius * sp.radius
  let discriminant := b * b - 4 * a * c
  if discriminant ≤ 0 then none
  else
    let disc2 := Real.sqrt discriminant
    let t0 := (-b - disc2) / (2 * a)
    let t1 := (-b + disc2) / (2 * a)
    if t0 < 0 ∧ t1 < 0 then none
    else
      let distance := if t0 < 0 then t1 else t0
      let hit_position := ray.point_at_distance distance
      let normal := (hit_position - sp.position).normalize
      some { distance := distance, normal := normal }

/-- `impl Trace for Object` (main.rs lines 90-96): dispatch on the shape. -/
noncomputable def Object.intersect (o : Object) (ray : Ray) : Option Hit :=
  match o.shape with
  | Shape.sphere sp => sp.intersect ray

/-- One step of Rust's `Iterator::min_by` fold: the accumulator is kept
unless the new element compares strictly smaller (`cmp::min_by` returns its
first argument when the comparison is `Less` or `Equal`), so the first of
several equal minima survives. -/
noncomputable def minStep (acc q : Hit × Object) : Hit × Object :=
  if q.1.distance < acc.1.distance then q else acc

/-- Rust's `Iterator::min_by` keyed by `Hit.distance` (over `ℝ` the
`partial_cmp(..).unwrap()` of main.rs line 184 always succeeds). -/
noncomputable def minByDist : List (Hit × Object) → Option (Hit × Object)
  | [] => none
  | p :: ps => some (ps.foldl minStep p)

/-- `Scene::intersect` (main.rs lines 180-185): `filter_map` every object's
intersection, then `min_by` on the hit distance. -/
noncomputable def Scene.intersect (s : Scene) (ray : Ray) : Option (Hit × Object) :=
  minByDist (s.objects.filterMap fun o => (o.intersect ray).map fun h => (h, o))

/-- `Scene::trace` (main.rs lines 154-178), transcribed literally: on a miss
return black; on a hit, offset the hit point along the normal by
`SHADOW_BIAS`, and for each light add
`shade * material.color * light.intensity` unless the shadow ray from the
biased point toward the light hits anything. -/
noncomputable def Scene.trace (s : Scene) (ray : Ray) : Vec3 :=
  match s.intersect ray with
  | none => ⟨0, 0, 0⟩
  | some (hit, object) =>
    let hit_point := ray.point_at_distance hit.distance + Vec3.smul SHADOW_BIAS hit.normal
    s.lights.foldl
      (fun color light =>
        let shadow_ray_direction := Vec3.normalize (light.position - hit_point)
        let shadow_ray : Ray := ⟨hit_point, shadow_ray_direction⟩
        if (s.intersect shadow_ray).isSome then color
        else
          color +
            Vec3.smul light.intensity
              (Vec3.smul (max 0 (hit.normal.dot shadow_ray_direction)) object.material.color))
      ⟨0, 0, 0⟩

/-- The spec's description of the shading loop, following the claim's
wording exactly: the shadow-ray ORIGIN is the biased point, but the light
direction is computed from the UNBIASED hit point
(`normalize(light.position - hitPoint)` with
`hitPoint = ray.origin + hit.distance * ray.direction`); compare with
`Scene.trace`, whose direction uses the biased point. -/
noncomputable def specTrace (s : Scene) (ray : Ray) : Vec3 :=
  match s.intersect ray with
  | none => ⟨0, 0, 0⟩
  | some (hit, object) =>
    let hitPoint := ray.point_at_distance hit.distance
    let shadowOrigin := hitPoint + Vec3.smul SHADOW_BIAS hit.normal
    vsum (s.lights.map fun light =>
      let lightDir := Vec3.normalize (light.position - hitPoint)
      if (s.intersect ⟨shadowOrigin, lightDir⟩).isSome then ⟨0, 0, 0⟩
      else
        Vec3.smul light.intensity
          (Vec3.smul (max 0 (hit.normal.dot lightDir)) object.material.color))

/-- The three axis columns of nalgebra's `Matrix4::face_towards(eye, target, up)`
(a camera-to-world model transform): forward axis toward the target,
right axis `up × z`, and recomputed up axis `z × x`, each normalised. -/
noncomputable def faceTowards (eye target up : Vec3) : Vec3 × Vec3 × Vec3 :=
  let zaxis := (target - eye).normalize
  let xaxis := (up.cross zaxis).normalize
  let yaxis := (zaxis.cross xaxis).normalize
  (xaxis, yaxis, zaxis)

/-- Application of the `face_towards` affine matrix to a point with `w = 1`
(main.rs lines 241-242 apply it to `Point4::new(x, y, z, 1.0)`):
`eye + x * xaxis + y * yaxis + z * zaxis`. -/
noncomputable def camApply (eye target up : Vec3) (p : Vec3) : Vec3 :=
  eye + Vec3.smul p.x (faceTowards eye target up).1 +
    Vec3.smul p.y (faceTowards eye target up).2.1 +
    Vec3.smul p.z (faceTowards eye target up).2.2

/-- The primary ray for pixel `(px, py)` (main.rs lines 232-246): pixel
centre normalised to `(0,1)`, mapped to screen space scaled by the aspect
and the fov factor (`y` inverted), pushed through the camera
transform, direction normalised. `fov_adjust` and `aspect` are the values
computed on lines 217-220 (`tan(fov/2)` and `WIDTH/HEIGHT`), kept as
parameters. -/
noncomputable def pixelRay (width height : ℕ) (fov_adjust aspect : ℝ) (cam : Camera)
    (px py : ℕ) : Ray :=
  let norm_x := ((px : ℝ) + 0.5) / (width : ℝ)
  let norm_y := ((py : ℝ) + 0.5) / (height : ℝ)
  let screen_x := (2 * norm_x - 1) * aspect * fov_adjust
  let screen_y := (1 - 2 * norm_y) * fov_adjust
  let origin := camApply cam.position cam.look_at ⟨0, 1, 0⟩ ⟨0, 0, 0⟩
  let target := camApply cam.position cam.look_at ⟨0, 1, 0⟩ ⟨screen_x, screen_y, 1⟩
  { origin := origin, direction := (target - origin).normalize }

/-- Rust's `as u8` cast from `f32` (main.rs lines 250-252): a SATURATING
conversion — truncate toward zero, clamp to `[0, 255]` (Rust reference,
float-to-int `as` casts; NaN maps to 0, which the real model cannot
produce). For every real, truncation toward zero followed by clamping
agrees with `(min 255 ⌊v⌋).toNat`. -/
noncomputable def as_u8 (v : ℝ) : ℕ := (min 255 ⌊v⌋).toNat

/-- One output channel: `(component * 255.0) as u8` (main.rs lines 250-252). -/
noncomputable def channelByte (c : ℝ) : ℕ := as_u8 (c * 255)

/-- The claim's asserted conversion, modelled from the spec's words: a
WRAPPING (truncating, overflow mod 256) cast of `floor(component * 255)`
to an 8-bit unsigned integer. Compare with `channelByte`. -/
noncomputable def specWrapByte (c : ℝ) : ℕ := (⌊c * 255⌋ % 256).toNat

/-- The colour traced for pixel `(x, y)` (main.rs line 248). -/
noncomputable def pixelColor (s : Scene) (width height : ℕ) (fov_adjust aspect : ℝ)
    (x y : ℕ) : Vec3 :=
  s.trace (pixelRay width height fov_adjust aspect s.camera x y)

/-- The three bytes stored for pixel `(x, y)` (main.rs lines 250-252). -/
noncomputable def pixelBytes (s : Scene) (width height : ℕ) (fov_adjust aspect : ℝ)
    (x y : ℕ) : List ℕ :=
  [channelByte (pixelColor s width height fov_adjust aspect x y).x,
   channelByte (pixelColor s width height fov_adjust aspect x y).y,
   channelByte (pixelColor s width height fov_adjust aspect x y).z]

/-- The three buffer writes of one loop iteration (main.rs lines 247-252):
`index = (y * WIDTH + x) * 3`, then the three channel bytes are stored at
`index`, `index + 1`, `index + 2`. -/
noncomputable def writePixel (s : Scene) (width height : ℕ) (fov_adjust aspect : ℝ)
    (buf : List ℕ) (x y : ℕ) : List ℕ :=
  let index := (y * width + x) * 3
  let color := pixelColor s width height fov_adjust aspect x y
  ((buf.set index (channelByte color.x)).set (index + 1) (channelByte color.y)).set
    (index + 2) (channelByte color.z)

/-- The render loop (main.rs lines 215, 230-254): a zero-initialised buffer
of `WIDTH * HEIGHT * 3` bytes, filled by the nested `for y { for x { … } }`
iteration. -/
noncomputable def render (s : Scene) (width height : ℕ) (fov_adjust aspect : ℝ) : List ℕ :=
  (List.range height).foldl
    (fun buf y =>
      (List.range width).foldl
        (fun buf2 x => writePixel s width height fov_adjust aspect buf2 x y) buf)
    (List.replicate (width * height * 3) 0)

/-- Concatenation of `f a, f (a+1), …, f (a+n-1)`: the row-major layout the
render loop is proved to produce. -/
def rowsConcat (f : ℕ → List ℕ) : ℕ → ℕ → List ℕ
  | _, 0 => []
  | a, n + 1 => f a ++ rowsConcat f (a + 1) n

/-! ### A NaN-aware refinement of the `f32` model

`F32` is a finite real or "not a real" (`none`, covering NaN). Arithmetic
propagates `none`; comparisons on `none` are `false`, exactly the IEEE-754
behaviour of `f32` NaN comparisons that `Sphere::intersect`'s branches and
`partial_cmp` observe. Division by zero is also mapped to `none` (the
renderer's panic path below never divides a finite value by zero, so the
±∞/NaN distinction is not needed). -/

/-- An `f32` value: a finite real, or NaN (`none`). -/
abbrev F32 := Option ℝ

/-- NaN-propagating addition. -/
def fAdd : F32 → F32 → F32
  | some a, some b => some (a + b)
  | _, _ => none

/-- NaN-propagating subtraction. -/
def fSub : F32 → F32 → F32
  | some a, some b => some (a - b)
  | _, _ => none

/-- NaN-propagating multiplication. -/
def fMul : F32 → F32 → F32
  | some a, some b => some (a * b)
  | _, _ => none

/-- NaN-propagating negation. -/
def fNeg : F32 → F32
  | some a => some (-a)
  | _ => none

/-- NaN-propagating division (division by zero also collapsed to `none`). -/
noncomputable def fDiv : F32 → F32 → F32
  | some a, some b => if b = 0 then none else some (a / b)
  | _, _ => none

/-- NaN-propagating square root (negative argument yields NaN). -/
noncomputable def fSqrt : F32 → F32
  | some a => if a < 0 then none else some (Real.sqrt a)
  | _ => none

/-- `f32` `<`: any comparison against NaN is `false`. -/
noncomputable def fLt : F32 → F32 → Bool
  | some a, some b => decide (a < b)
  | _, _ => false

/-- `f32` `<=`: any comparison against NaN is `false`. -/
noncomputable def fLe : F32 → F32 → Bool
  | some a, some b => decide (a ≤ b)
  | _, _ => false

/-- `f32::partial_cmp`: `None` whenever either side is NaN. -/
noncomputable def fPartialCmp : F32 → F32 → Option Ordering
  | some a, some b => some (compare a b)
  | _, _ => none

/-- A vector of `f32` values. -/
structure Vec3F where
  x : F32
  y : F32
  z : F32

/-- Componentwise `f32` addition. -/
def vaddF (v w : Vec3F) : Vec3F := ⟨fAdd v.x w.x, fAdd v.y w.y, fAdd v.z w.z⟩

/-- Componentwise `f32` subtraction. -/
def vsubF (v w : Vec3F) : Vec3F := ⟨fSub v.x w.x, fSub v.y w.y, fSub v.z w.z⟩

/-- `f32` scalar multiple. -/
def vsmulF (r : F32) (v : Vec3F) : Vec3F := ⟨fMul r v.x, fMul r v.y, fMul r v.z⟩

/-- `f32` dot product. -/
def vdotF (v w : Vec3F) : F32 :=
  fAdd (fAdd (fMul v.x w.x) (fMul v.y w.y)) (fMul v.z w.z)

/-- `f32` normalisation: componentwise division by the length. -/
noncomputable def vnormalizeF (v : Vec3F) : Vec3F :=
  let n := fSqrt (vdotF v v)
  ⟨fDiv v.x n, fDiv v.y n, fDiv v.z n⟩

/-- A ray with `f32` coordinates. -/
structure RayF where
  origin : Vec3F
  direction : Vec3F

/-- A hit with `f32` coordinates. -/
structure HitF where
  distance : F32
  normal : Vec3F

/-- A sphere with `f32` coordinates (the `Object` wrapper and material are
irrelevant to the intersection query and omitted). -/
structure SphereF where
  position : Vec3F
  radius : F32

/-- `Sphere::intersect` over the NaN-aware model — the same lines 108-135,
with the `f32` comparison semantics (`discriminant <= 0.0` and
`t0 < 0.0 && t1 < 0.0` are `false` on NaN, so a NaN discriminant falls
through to the root computation and a NaN distance is RETURNED in a hit). -/
noncomputable def SphereF.intersect (sp : SphereF) (ray : RayF) : Option HitF :=
  let oc := vsubF ray.origin sp.position
  let a := vdotF ray.direction ray.direction
  let b := fMul (some 2) (vdotF oc ray.direction)
  let c := fSub (vdotF oc oc) (fMul sp.radius sp.radius)
  let discriminant := fSub (fMul b b) (fMul (fMul (some 4) a) c)
  if fLe discriminant (some 0) then none
  else
    let disc2 := fSqrt discriminant
    let t0 := fDiv (fSub (fNeg b) disc2) (fMul (some 2) a)
    let t1 := fDiv (fAdd (fNeg b) disc2) (fMul (some 2) a)
    if fLt t0 (some 0) && fLt t1 (some 0) then none
    else
      let distance := if fLt t0 (some 0) then t1 else t0
      let hit_position := vaddF ray.origin (vsmulF distance ray.direction)
      let normal := vnormalizeF (vsubF hit_position sp.position)
      some { distance := distance, normal := normal }

/-- The result of a computation that may panic. -/
inductive PanicOr (α : Type) where
  | panicked : PanicOr α
  | ok : α → PanicOr α

/-- One `min_by` comparison step as executed by `Scene::intersect`
(main.rs line 184): `a.0.distance.partial_cmp(&b.0.distance).unwrap()`
PANICS (models as `panicked`) when either distance is NaN; otherwise
`cmp::min_by` keeps the accumulator unless the new element is strictly
smaller. -/
noncomputable def fMinStep (acc q : HitF × SphereF) : PanicOr (HitF × SphereF) :=
  match fPartialCmp acc.1.distance q.1.distance with
  | none => PanicOr.panicked
  | some Ordering.gt => PanicOr.ok q
  | some _ => PanicOr.ok acc

/-- The `min_by` fold over the remaining hits, propagating a panic. -/
noncomputable def foldMinF : (HitF × SphereF) → List (HitF × SphereF) → PanicOr (HitF × SphereF)
  | acc, [] => PanicOr.ok acc
  | acc, q :: qs =>
    match fMinStep acc q with
    | PanicOr.panicked => PanicOr.panicked
    | PanicOr.ok acc2 => foldMinF acc2 qs

/-- `Scene::intersect` over the NaN-aware model (main.rs lines 180-185):
collect every hit, then `min_by` with the panicking unwrap. -/
noncomputable def SceneF.intersect (objects : List SphereF) (ray : RayF) :
    PanicOr (Option (HitF × SphereF)) :=
  match objects.filterMap (fun o => (o.intersect ray).map fun h => (h, o)) with
  | [] => PanicOr.ok none
  | p :: ps =>
    match foldMinF p ps with
    | PanicOr.panicked => PanicOr.panicked
    | PanicOr.ok r => PanicOr.ok (some r)

/-! ### Concrete inputs used by witnesses and counterexamples -/

/-- A unit sphere at the origin with white material. -/
noncomputable def objW : Object :=
  { shape := Shape.sphere { position := ⟨0, 0, 0⟩, radius := 1 },
    material := { color := ⟨1, 1, 1⟩ } }

/-- A camera (its value is irrelevant to `trace`). -/
noncomputable def camW : Camera := { position := ⟨0, 0, -10⟩, look_at := ⟨0, 0, 0⟩ }

/-- A ray on the x-axis aimed at `objW` from `(3,0,0)`: it hits at
distance 2 with normal `(1,0,0)`. -/
noncomputable def rayW : Ray := { origin := ⟨3, 0, 0⟩, direction := ⟨-1, 0, 0⟩ }

/-- The hit `rayW` produces on `objW`. -/
noncomputable def hitW : Hit := { distance := 2, normal := ⟨1, 0, 0⟩ }

/-- One-object scene with no lights. -/
noncomputable def sceneW : Scene := { objects := [objW], camera := camW, lights := [] }

/-- A light placed so that the biased and unbiased shadow directions fall on
opposite sides of the surface tangent plane at the hit of `rayW` on `objW`:
the hit point is `(1,0,0)`, the biased point `(1.0002, 0, 0)`, and the light
sits at `x = 1.0001`, between the two. -/
noncomputable def lightC4 : Light := { position := ⟨10001 / 10000, 1, 0⟩, intensity := 1 }

/-- One-object one-light scene for the shading counterexample. -/
noncomputable def sceneC4 : Scene := { objects := [objW], camera := camW, lights := [lightC4] }

/-- A camera at the origin looking down the `z` axis (its look-at axes are
the identity frame), used for the camera-mapping claim. -/
noncomputable def camC7 : Camera := { position := ⟨0, 0, 0⟩, look_at := ⟨0, 0, 1⟩ }

/-- The NaN direction ray (as produced e.g. by normalising the zero vector
when the camera position equals its look-at target). -/
noncomputable def nanRayF : RayF :=
  { origin := ⟨some 0, some 0, some 0⟩, direction := ⟨none, none, none⟩ }

/-- First sphere of the panic scene. -/
noncomputable def sphereFA : SphereF := { position := ⟨some 0, some 0, some 0⟩, radius := some 1 }

/-- Second sphere of the panic scene. -/
noncomputable def sphereFB : SphereF := { position := ⟨some 5, some 0, some 0⟩, radius := some 1 }

/-! ## Componentwise lemmas for `Vec3` -/

@[simp] theorem add_x (v w : Vec3) : (v + w).x = v.x + w.x := rfl

@[simp] theorem add_y (v w : Vec3) : (v + w).y = v.y + w.y := rfl

@[simp] theorem add_z (v w : Vec3) : (v + w).z = v.z + w.z := rfl

@[simp] theorem sub_x (v w : Vec3) : (v - w).x = v.x - w.x := rfl

@[simp] theorem sub_y (v w : Vec3) : (v - w).y = v.y - w.y := rfl

@[simp] theorem sub_z (v w : Vec3) : (v - w).z = v.z - w.z := rfl

@[simp] theorem smul_x (r : ℝ) (v : Vec3) : (Vec3.smul r v).x = r * v.x := rfl

@[simp] theorem smul_y (r : ℝ) (v : Vec3) : (Vec3.smul r v).y = r * v.y := rfl

@[simp] theorem smul_z (r : ℝ) (v : Vec3) : (Vec3.smul r v).z = r * v.z := rfl

@[simp] theorem normalize_x (v : Vec3) : v.normalize.x = v.x / v.norm := rfl

@[simp] theorem normalize_y (v : Vec3) : v.normalize.y = v.y / v.norm := rfl

@[simp] theorem normalize_z (v : Vec3) : v.normalize.z = v.z / v.norm := rfl

theorem Vec3.ext_comp {v w : Vec3} (hx : v.x = w.x) (hy : v.y = w.y) (hz : v.z = w.z) :
    v = w := by
  cases v; cases w; simp only at hx hy hz; simp [hx, hy, hz]

theorem vec_add_zero (v : Vec3) : v + (⟨0, 0, 0⟩ : Vec3) = v := by
  apply Vec3.ext_comp <;> simp

theorem vec_zero_add (v : Vec3) : (⟨0, 0, 0⟩ : Vec3) + v = v := by
  apply Vec3.ext_comp <;> simp

theorem vec_add_assoc (u v w : Vec3) : u + v + w = u + (v + w) := by
  apply Vec3.ext_comp <;> simp <;> ring

@[simp] theorem vsum_nil : vsum [] = (⟨0, 0, 0⟩ : Vec3) := rfl

@[simp] theorem vsum_cons (v : Vec3) (vs : List Vec3) : vsum (v :: vs) = v + vsum vs := rfl

theorem vsum_append (l1 l2 : List Vec3) : vsum (l1 ++ l2) = vsum l1 + vsum l2 := by
  induction l1 with
  | nil => simp [vec_zero_add]
  | cons v vs ih => simp [ih, vec_add_assoc]

/-! ## Norms, normalisation and Cauchy–Schwarz -/

theorem dot_self_nonneg (v : Vec3) : 0 ≤ v.dot v :=
  add_nonneg (add_nonneg (mul_self_nonneg _) (mul_self_nonneg _)) (mul_self_nonneg _)

theorem vec_norm_nonneg (v : Vec3) : 0 ≤ v.norm := Real.sqrt_nonneg _

theorem dot_le_norm_mul (v w : Vec3) : v.dot w ≤ v.norm * w.norm := by
  have hsq : (v.dot w) ^ 2 ≤ (v.dot v) * (w.dot w) := by
    simp only [Vec3.dot]
    nlinarith [sq_nonneg (v.x * w.y - v.y * w.x), sq_nonneg (v.x * w.z - v.z * w.x),
      sq_nonneg (v.y * w.z - v.z * w.y)]
  calc v.dot w ≤ |v.dot w| := le_abs_self _
    _ = Real.sqrt ((v.dot w) ^ 2) := (Real.sqrt_sq_eq_abs _).symm
    _ ≤ Real.sqrt ((v.dot v) * (w.dot w)) := Real.sqrt_le_sqrt hsq
    _ = v.norm * w.norm := by
        rw [Real.sqrt_mul (dot_self_nonneg v)]; rfl

theorem norm_normalize_le_one (v : Vec3) : v.normalize.norm ≤ 1 := by
  have hd : v.normalize.dot v.normalize = (v.dot v) / v.norm ^ 2 := by
    simp only [Vec3.dot, normalize_x, normalize_y, normalize_z]
    ring
  rcases eq_or_lt_of_le (dot_self_nonneg v) with h0 | hpos
  · have : v.normalize.dot v.normalize = 0 := by rw [hd, ← h0]; simp
    simp only [Vec3.norm, this, Real.sqrt_zero]; norm_num
  · have hnorm : v.norm ^ 2 = v.dot v := Real.sq_sqrt (le_of_lt hpos)
    have : v.normalize.dot v.normalize = 1 := by
      rw [hd, hnorm, div_self (ne_of_gt hpos)]
    simp only [Vec3.norm, this, Real.sqrt_one, le_refl]

theorem normalize_norm_mul_dot_le_one {u w : Vec3} :
    (Vec3.normalize u).dot (Vec3.normalize w) ≤ 1 := by
  calc (Vec3.normalize u).dot (Vec3.normalize w)
      ≤ (Vec3.normalize u).norm * (Vec3.normalize w).norm := dot_le_norm_mul _ _
    _ ≤ 1 * 1 := by
        apply mul_le_mul (norm_normalize_le_one u) (norm_normalize_le_one w)
          (vec_norm_nonneg _) (by norm_num)
    _ = 1 := by norm_num

/-! ## Core facts about `Sphere.intersect` -/

theorem sphere_intersect_none_of_disc_nonpos (sp : Sphere) (ray : Ray)
    (h : sphereDiscriminant sp ray ≤ 0) : sp.intersect ray = none := by
  simp only [sphereDiscriminant] at h
  simp only [Sphere.intersect]
  rw [if_pos h]

theorem sphere_intersect_some_disc_pos (sp : Sphere) (ray : Ray) (h : Hit)
    (hs : sp.intersect ray = some h) : 0 < sphereDiscriminant sp ray := by
  by_contra hc
  push_neg at hc
  rw [sphere_intersect_none_of_disc_nonpos sp ray hc] at hs
  exact Option.noConfusion hs

theorem sphere_intersect_normal_shape (sp : Sphere) (ray : Ray) (h : Hit)
    (hs : sp.intersect ray = some h) : ∃ w, h.normal = Vec3.normalize w := by
  simp only [Sphere.intersect] at hs
  split_ifs at hs
  all_goals obtain rfl := Option.some.inj hs
  all_goals exact ⟨_, rfl⟩

/-! ## The `min_by` fold of `Scene.intersect` -/

theorem foldlMin_spec (ps : List (Hit × Object)) (p : Hit × Object) :
    ∃ l1 l2, p :: ps = l1 ++ (ps.foldl minStep p) :: l2 ∧
      (∀ q ∈ l1, (ps.foldl minStep p).1.distance < q.1.distance) ∧
      (∀ q ∈ p :: ps, (ps.foldl minStep p).1.distance ≤ q.1.distance) := by
  induction ps generalizing p with
  | nil =>
    refine ⟨[], [], by simp, by simp, ?_⟩
    intro q hq
    simp only [List.foldl_nil]
    rcases List.mem_singleton.mp hq with rfl
    exact le_refl _
  | cons q ps ih =>
    rw [List.foldl_cons]
    obtain ⟨l1, l2, hdec, hstrict, hle⟩ := ih (minStep p q)
    by_cases hq : q.1.distance < p.1.distance
    · have hstep : minStep p q = q := if_pos hq
      rw [hstep] at hdec hstrict hle ⊢
      have hr_le_q : (ps.foldl minStep q).1.distance ≤ q.1.distance :=
        hle q (List.mem_cons_self _ _)
      refine ⟨p :: l1, l2, ?_, ?_, ?_⟩
      · simpa using congrArg (List.cons p) hdec
      · intro x hx
        rcases List.mem_cons.mp hx with rfl | hx
        · exact lt_of_le_of_lt hr_le_q hq
        · exact hstrict x hx
      · intro x hx
        rcases List.mem_cons.mp hx with rfl | hx
        · exact le_of_lt (lt_of_le_of_lt hr_le_q hq)
        · exact hle x hx
    · have hstep : minStep p q = p := if_neg hq
      rw [hstep] at hdec hstrict hle ⊢
      have hpq : p.1.distance ≤ q.1.distance := not_lt.mp hq
      cases l1 with
      | nil =>
        simp only [List.nil_append] at hdec
        have hp : ps.foldl minStep p = p := (List.cons.inj hdec).1.symm
        have hl2 : l2 = ps := (List.cons.inj hdec).2.symm
        refine ⟨[], q :: ps, ?_, by simp, ?_⟩
        · simp [hp]
        · intro x hx
          rcases List.mem_cons.mp hx with rfl | hx
          · exact hle x (List.mem_cons_self _ _)
          · rcases List.mem_cons.mp hx with rfl | hx
            · exact le_trans (hle p (List.mem_cons_self _ _)) hpq
            · exact hle x (List.mem_cons_of_mem _ hx)
      | cons hd tl =>
        simp only [List.cons_append] at hdec
        have hhd : hd = p := (List.cons.inj hdec).1.symm
        have hps : ps = tl ++ (ps.foldl minStep p) :: l2 := (List.cons.inj hdec).2
        have hrp : (ps.foldl minStep p).1.distance < p.1.distance := by
          apply hstrict
          rw [hhd]
          exact List.mem_cons_self _ _
        refine ⟨p :: q :: tl, l2, ?_, ?_, ?_⟩
        · simp only [List.cons_append]
          exact congrArg (fun l => p :: q :: l) hps
        · intro x hx
          rcases List.mem_cons.mp hx with rfl | hx
          · exact hrp
          · rcases List.mem_cons.mp hx with rfl | hx
            · exact lt_of_lt_of_le hrp hpq
            · exact hstrict x (List.mem_cons_of_mem _ hx)
        · intro x hx
          rcases List.mem_cons.mp hx with rfl | hx
          · exact hle x (List.mem_cons_self _ _)
          · rcases List.mem_cons.mp hx with rfl | hx
            · exact le_trans (le_of_lt hrp) hpq
            · exact hle x (List.mem_cons_of_mem _ hx)

theorem minByDist_eq_none {L : List (Hit × Object)} : minByDist L = none ↔ L = [] := by
  cases L <;> simp [minByDist]

theorem filterMap_split {α β : Type} (f : α → Option β) :
    ∀ (l : List α) (xs : List β) (y : β) (ys : List β), l.filterMap f = xs ++ y :: ys →
      ∃ l1 a l2, l = l1 ++ a :: l2 ∧ f a = some y ∧ l1.filterMap f = xs ∧
        l2.filterMap f = ys := by
  intro l
  induction l with
  | nil =>
    intro xs y ys h
    simp only [List.filterMap_nil] at h
    exact absurd h.symm (List.append_ne_nil_of_right_ne_nil xs (by simp))
  | cons a t ih =>
    intro xs y ys h
    rw [List.filterMap_cons] at h
    cases hfa : f a with
    | none =>
      rw [hfa] at h
      obtain ⟨l1, b, l2, hl, hb, h1, h2⟩ := ih xs y ys h
      exact ⟨a :: l1, b, l2, by simp [hl], hb, by simp [List.filterMap_cons, hfa, h1], h2⟩
    | some b =>
      rw [hfa] at h
      cases xs with
      | nil =>
        simp only [List.nil_append] at h
        have hby : b = y := (List.cons.inj h).1
        have hts : t.filterMap f = ys := (List.cons.inj h).2
        exact ⟨[], a, t, by simp, hby ▸ hfa, by simp, hts⟩
      | cons x xs2 =>
        simp only [List.cons_append] at h
        have hbx : b = x := (List.cons.inj h).1
        have ht : t.filterMap f = xs2 ++ y :: ys := (List.cons.inj h).2
        obtain ⟨l1, c, l2, hl, hc, h1, h2⟩ := ih xs2 y ys ht
        exact ⟨a :: l1, c, l2, by simp [hl], hc,
          by simp [List.filterMap_cons, hfa, h1, hbx], h2⟩

/-! ## Specification of `Scene.intersect` -/

theorem scene_intersect_none_iff (s : Scene) (ray : Ray) :
    s.intersect ray = none ↔ ∀ o ∈ s.objects, o.intersect ray = none := by
  rw [Scene.intersect, minByDist_eq_none, List.filterMap_eq_nil_iff]
  constructor
  · intro h o ho
    simpa using h o ho
  · intro h o ho
    simp [h o ho]

theorem scene_intersect_spec (s : Scene) (ray : Ray) (h : Hit) (o : Object)
    (hs : s.intersect ray = some (h, o)) :
    ∃ os1 os2, s.objects = os1 ++ o :: os2 ∧ o.intersect ray = some h ∧
      (∀ o' ∈ s.objects, ∀ h', o'.intersect ray = some h' → h.distance ≤ h'.distance) ∧
      (∀ o' ∈ os1, ∀ h', o'.intersect ray = some h' → h.distance < h'.distance) := by
  rw [Scene.intersect] at hs
  rcases hL : s.objects.filterMap (fun o => (o.intersect ray).map fun hh => (hh, o)) with
    _ | ⟨p, ps⟩
  · rw [hL] at hs
    exact Option.noConfusion hs
  · rw [hL] at hs
    simp only [minByDist] at hs
    have hfold := Option.some.inj hs
    obtain ⟨l1, l2, hdec, hstrict, hle⟩ := foldlMin_spec ps p
    rw [hfold] at hdec hstrict hle
    have hLdec : s.objects.filterMap (fun o => (o.intersect ray).map fun hh => (hh, o)) =
        l1 ++ (h, o) :: l2 := by rw [hL]; exact hdec
    obtain ⟨os1, a, os2, hobj, hfa, h1, _⟩ :=
      filterMap_split (fun o => (o.intersect ray).map fun hh => (hh, o)) s.objects l1 (h, o)
        l2 hLdec
    obtain ⟨hh, hah, heq⟩ := Option.map_eq_some'.mp hfa
    have e1 : hh = h := (Prod.ext_iff.mp heq).1
    have e2 : a = o := (Prod.ext_iff.mp heq).2
    subst e1
    subst e2
    refine ⟨os1, os2, hobj, hah, ?_, ?_⟩
    · intro o' ho' h' hi
      have hmem : (h', o') ∈ p :: ps := by
        rw [← hL]
        exact List.mem_filterMap.mpr ⟨o', ho', by simp [hi]⟩
      exact hle _ hmem
    · intro o' ho' h' hi
      have hmem : (h', o') ∈ l1 := by
        rw [← h1]
        exact List.mem_filterMap.mpr ⟨o', ho', by simp [hi]⟩
      exact hstrict _ hmem

theorem scene_intersect_single_some (o : Object) (cam : Camera) (L : List Light) (ray : Ray)
    (h : Hit) (ho : o.intersect ray = some h) :
    Scene.intersect ⟨[o], cam, L⟩ ray = some (h, o) := by
  simp [Scene.intersect, List.filterMap_cons, ho, minByDist]

theorem scene_intersect_single_none (o : Object) (cam : Camera) (L : List Light) (ray : Ray)
    (ho : o.intersect ray = none) :
    Scene.intersect ⟨[o], cam, L⟩ ray = none := by
  simp [Scene.intersect, List.filterMap_cons, ho, minByDist]

/-- `Scene::intersect` reads only the object list: the camera and the lights
play no role in visibility queries. -/
theorem scene_intersect_lights_irrel (objs : List Object) (cam1 cam2 : Camera)
    (L1 L2 : List Light) (ray : Ray) :
    Scene.intersect ⟨objs, cam1, L1⟩ ray = Scene.intersect ⟨objs, cam2, L2⟩ ray := rfl

/-! ## The shading loop as a sum over lights -/

theorem foldl_cond_add {α : Type} (p : α → Bool) (f : α → Vec3) (L : List α) :
    ∀ init : Vec3,
      L.foldl (fun c l => if p l then c else c + f l) init
        = init + vsum (L.map fun l => if p l then (⟨0, 0, 0⟩ : Vec3) else f l) := by
  induction L with
  | nil => intro init; simp [vec_add_zero]
  | cons a t ih =>
    intro init
    rw [List.foldl_cons, List.map_cons, vsum_cons]
    cases hp : p a with
    | true => simp [hp, ih, vec_zero_add]
    | false => simp [hp, ih, vec_add_assoc]

theorem trace_of_intersect_none (s : Scene) (ray : Ray) (hs : s.intersect ray = none) :
    s.trace ray = ⟨0, 0, 0⟩ := by
  simp [Scene.trace, hs]

theorem trace_of_intersect_some (s : Scene) (ray : Ray) (h : Hit) (o : Object)
    (hs : s.intersect ray = some (h, o)) :
    s.trace ray = vsum (s.lights.map fun light =>
      if (s.intersect ⟨ray.point_at_distance h.distance + Vec3.smul SHADOW_BIAS h.normal,
          Vec3.normalize (light.position -
            (ray.point_at_distance h.distance + Vec3.smul SHADOW_BIAS h.normal))⟩).isSome then
        (⟨0, 0, 0⟩ : Vec3)
      else
        Vec3.smul light.intensity
          (Vec3.smul
            (max 0 (h.normal.dot (Vec3.normalize (light.position -
              (ray.point_at_distance h.distance + Vec3.smul SHADOW_BIAS h.normal)))))
            o.material.color)) := by
  have e := foldl_cond_add
    (fun light => (s.intersect ⟨ray.point_at_distance h.distance +
        Vec3.smul SHADOW_BIAS h.normal,
      Vec3.normalize (light.position -
        (ray.point_at_distance h.distance + Vec3.smul SHADOW_BIAS h.normal))⟩).isSome)
    (fun light =>
      Vec3.smul light.intensity
        (Vec3.smul
          (max 0 (h.normal.dot (Vec3.normalize (light.position -
            (ray.point_at_distance h.distance + Vec3.smul SHADOW_BIAS h.normal)))))
          o.material.color))
    s.lights ⟨0, 0, 0⟩
  rw [vec_zero_add] at e
  rw [Scene.trace, hs]
  exact e

/-! ## Numeric evaluation helpers -/

theorem sqrt_four : Real.sqrt 4 = 2 := by
  rw [show (4 : ℝ) = 2 ^ 2 by norm_num, Real.sqrt_sq (by norm_num : (0 : ℝ) ≤ 2)]

/-- `objW.intersect` is the sphere query on the unit sphere at the origin. -/
theorem objW_intersect (ray : Ray) :
    objW.intersect ray = Sphere.intersect { position := ⟨0, 0, 0⟩, radius := 1 } ray := rfl

theorem sphereW_eval :
    Sphere.intersect { position := ⟨0, 0, 0⟩, radius := 1 } rayW = some hitW := by
  rw [Sphere.intersect]
  norm_num [rayW, hitW, Vec3.dot, Ray.point_at_distance, Vec3.normalize, Vec3.norm,
    sqrt_four, Real.sqrt_one]

theorem sceneW_intersect : sceneW.intersect rayW = some (hitW, objW) :=
  scene_intersect_single_some objW camW [] rayW hitW
    (by rw [objW_intersect]; exact sphereW_eval)

theorem sceneC4_intersect : sceneC4.intersect rayW = some (hitW, objW) :=
  scene_intersect_single_some objW camW [lightC4] rayW hitW
    (by rw [objW_intersect]; exact sphereW_eval)

/-- Unfolded value of the biased hit point of `rayW` on `objW`. -/
theorem biased_point_eval :
    rayW.point_at_distance hitW.distance + Vec3.smul SHADOW_BIAS hitW.normal =
      (⟨5001 / 5000, 0, 0⟩ : Vec3) := by
  apply Vec3.ext_comp <;> norm_num [rayW, hitW, Ray.point_at_distance, SHADOW_BIAS]

theorem unbiased_point_eval :
    rayW.point_at_distance hitW.distance = (⟨1, 0, 0⟩ : Vec3) := by
  apply Vec3.ext_comp <;> norm_num [rayW, hitW, Ray.point_at_distance]

theorem norm_u_pos (u : ℝ) : 0 < Vec3.norm ⟨u, 1, 0⟩ := by
  rw [Vec3.norm]
  apply Real.sqrt_pos.mpr
  simp only [Vec3.dot]
  nlinarith [mul_self_nonneg u]

/-- The shadow rays of the `sceneC4` configuration miss the sphere: from the
biased point `(5001/5000, 0, 0)` in direction `normalize (±1/10000, 1, 0)`
the discriminant is negative. -/
theorem occl_disc (u : ℝ) (hu : u * u = 1 / 100000000) :
    sphereDiscriminant { position := ⟨0, 0, 0⟩, radius := 1 }
      ⟨⟨5001 / 5000, 0, 0⟩, Vec3.normalize ⟨u, 1, 0⟩⟩ ≤ 0 := by
  have hspos : 0 < Vec3.norm ⟨u, 1, 0⟩ := norm_u_pos u
  have hs2 : Vec3.norm ⟨u, 1, 0⟩ ^ 2 = u * u + 1 := by
    rw [Vec3.norm, Real.sq_sqrt (by simp only [Vec3.dot]; nlinarith [mul_self_nonneg u])]
    simp [Vec3.dot]
  simp only [sphereDiscriminant, Vec3.dot, sub_x, sub_y, sub_z, normalize_x, normalize_y,
    normalize_z]
  set n := Vec3.norm ⟨u, 1, 0⟩
  have hd2 : (0 : ℝ) ≤ 1 / n * (1 / n) := mul_self_nonneg _
  have h3 : u * u * (1 / n * (1 / n)) = 1 / 100000000 * (1 / n * (1 / n)) := by rw [hu]
  have expand : 2 * ((5001 / 5000 - 0) * (u / n) + (0 - 0) * (1 / n) + (0 - 0) * (0 / n)) *
      (2 * ((5001 / 5000 - 0) * (u / n) + (0 - 0) * (1 / n) + (0 - 0) * (0 / n))) -
    4 * (u / n * (u / n) + 1 / n * (1 / n) + 0 / n * (0 / n)) *
      ((5001 / 5000 - 0) * (5001 / 5000 - 0) + (0 - 0) * (0 - 0) + (0 - 0) * (0 - 0) - 1 * 1)
      = 4 * (u * u * (1 / n * (1 / n))) - 10001 / 6250000 * (1 / n * (1 / n)) := by
    ring
  rw [expand, h3]
  linarith [hd2]

theorem occl_none (u : ℝ) (hu : u * u = 1 / 100000000) :
    sceneC4.intersect ⟨⟨5001 / 5000, 0, 0⟩, Vec3.normalize ⟨u, 1, 0⟩⟩ = none :=
  scene_intersect_single_none objW camW [lightC4] _
    (by rw [objW_intersect]
        exact sphere_intersect_none_of_disc_nonpos _ _ (occl_disc u hu))

/-- What the code computes at the `sceneC4` configuration: the shadow
direction, taken from the BIASED point, points slightly away from the
surface (`x`-component negative), so the Lambert factor clamps to zero and
the whole trace is black. -/
theorem traceC4_eval : sceneC4.trace rayW = (⟨0, 0, 0⟩ : Vec3) := by
  rw [trace_of_intersect_some sceneC4 rayW hitW objW sceneC4_intersect]
  rw [show sceneC4.lights = [lightC4] from rfl]
  simp only [List.map_cons, List.map_nil, vsum_cons, vsum_nil]
  rw [biased_point_eval]
  have hdir : lightC4.position - (⟨5001 / 5000, 0, 0⟩ : Vec3) = (⟨-1 / 10000, 1, 0⟩ : Vec3) := by
    apply Vec3.ext_comp <;> norm_num [lightC4]
  rw [hdir, occl_none (-1 / 10000) (by norm_num)]
  have hshade : max 0 (hitW.normal.dot (Vec3.normalize ⟨-1 / 10000, 1, 0⟩)) = 0 := by
    apply max_eq_left
    have hn := norm_u_pos (-1 / 10000)
    simp only [hitW, Vec3.dot, normalize_x, normalize_y, normalize_z]
    have hx : (-1 / 10000 : ℝ) / Vec3.norm ⟨-1 / 10000, 1, 0⟩ ≤ 0 :=
      div_nonpos_of_nonpos_of_nonneg (by norm_num) (le_of_lt hn)
    nlinarith [hx]
  rw [hshade]
  apply Vec3.ext_comp <;> simp [vec_add_zero]

/-- What the spec's wording predicts at the same configuration: the shadow
direction, taken from the UNBIASED point, points slightly toward the light
side (`x`-component positive), so the claimed contribution is strictly
positive in `x`. -/
theorem specTraceC4_pos : 0 < (specTrace sceneC4 rayW).x := by
  rw [specTrace, sceneC4_intersect]
  rw [show sceneC4.lights = [lightC4] from rfl]
  simp only [List.map_cons, List.map_nil, vsum_cons, vsum_nil]
  rw [biased_point_eval, unbiased_point_eval]
  have hdir : lightC4.position - (⟨1, 0, 0⟩ : Vec3) = (⟨1 / 10000, 1, 0⟩ : Vec3) := by
    apply Vec3.ext_comp <;> norm_num [lightC4]
  rw [hdir, occl_none (1 / 10000) (by norm_num)]
  have hn := norm_u_pos (1 / 10000)
  have hdot : (0 : ℝ) < hitW.normal.dot (Vec3.normalize ⟨1 / 10000, 1, 0⟩) := by
    simp only [hitW, Vec3.dot, normalize_x, normalize_y, normalize_z]
    have hx : (0 : ℝ) < (1 / 10000 : ℝ) / Vec3.norm ⟨1 / 10000, 1, 0⟩ :=
      div_pos (by norm_num) hn
    nlinarith [hx]
  have hmax : max 0 (hitW.normal.dot (Vec3.normalize ⟨1 / 10000, 1, 0⟩)) =
      hitW.normal.dot (Vec3.normalize ⟨1 / 10000, 1, 0⟩) := max_eq_right (le_of_lt hdot)
  simp only [hmax, add_x, smul_x]
  show 0 < lightC4.intensity * (hitW.normal.dot (Vec3.normalize ⟨1 / 10000, 1, 0⟩) *
    objW.material.color.x) + (0 : ℝ)
  rw [show lightC4.intensity = 1 from rfl, show objW.material.color.x = 1 from rfl]
  nlinarith [hdot]

theorem vsum_map_two {α : Type} (f g1 g2 : α → Vec3) (h1 : ∀ x, f x = g1 x)
    (h2 : ∀ x, f x = g2 x) (a b : α) :
    vsum ([a, b].map f) = vsum ([a].map g1) + vsum ([b].map g2) := by
  simp only [List.map_cons, List.map_nil, vsum_cons, vsum_nil, ← h1, ← h2]
  apply Vec3.ext_comp <;> simp

/-- With a positive discriminant, `Sphere::intersect` is the two-root case
split of main.rs lines 119-134. -/
theorem sphere_intersect_disc_pos_form (sp : Sphere) (ray : Ray) (a b t0 t1 : ℝ)
    (ha : a = ray.direction.dot ray.direction)
    (hb : b = 2 * ((ray.origin - sp.position).dot ray.direction))
    (hdisc : 0 < sphereDiscriminant sp ray)
    (ht0 : t0 = (-b - Real.sqrt (sphereDiscriminant sp ray)) / (2 * a))
    (ht1 : t1 = (-b + Real.sqrt (sphereDiscriminant sp ray)) / (2 * a)) :
    sp.intersect ray = if t0 < 0 ∧ t1 < 0 then none
      else some ⟨if t0 < 0 then t1 else t0,
        (ray.point_at_distance (if t0 < 0 then t1 else t0) - sp.position).normalize⟩ := by
  subst ha hb ht0 ht1
  simp only [sphereDiscriminant] at hdisc ⊢
  simp only [Sphere.intersect]
  rw [if_neg (not_le.mpr hdisc)]

/-! ## Claim theorems -/

/-- Claim C1: `Scene::intersect` returns `None` exactly when no object
reports an intersection; otherwise it returns a `(Hit, Object)` pair whose
distance is minimal among all reported intersections, and among objects
reporting the minimal distance the FIRST in the scene's object order wins
(`min_by` keeps the earlier of two equal elements). -/
theorem scene_intersect_nearest (s : Scene) (ray : Ray) :
    (s.intersect ray = none ↔ ∀ o ∈ s.objects, o.intersect ray = none) ∧
    (∀ h o, s.intersect ray = some (h, o) →
      ∃ os1 os2, s.objects = os1 ++ o :: os2 ∧ o.intersect ray = some h ∧
        (∀ o' ∈ s.objects, ∀ h', o'.intersect ray = some h' → h.distance ≤ h'.distance) ∧
        (∀ o' ∈ os1, ∀ h', o'.intersect ray = some h' → h.distance < h'.distance)) :=
  ⟨scene_intersect_none_iff s ray, fun h o hs => scene_intersect_spec s ray h o hs⟩

/-- Witness for C1 at the concrete one-sphere scene `sceneW` and ray `rayW`. -/
theorem scene_intersect_nearest_witness :
    sceneW.intersect rayW = some (hitW, objW) ∧
    (∃ os1 os2, sceneW.objects = os1 ++ objW :: os2 ∧ objW.intersect rayW = some hitW ∧
      (∀ o' ∈ sceneW.objects, ∀ h', o'.intersect rayW = some h' →
        hitW.distance ≤ h'.distance) ∧
      (∀ o' ∈ os1, ∀ h', o'.intersect rayW = some h' → hitW.distance < h'.distance)) :=
  ⟨sceneW_intersect, (scene_intersect_nearest sceneW rayW).2 hitW objW sceneW_intersect⟩

/-- Claim C2 counterexample: with the ray origin ON the sphere
(`origin (1,0,0)`, direction `(-1,0,0)`, unit sphere at the origin) the
root `t0 = 0` is returned as the hit distance — an exactly-zero root IS
returned, contradicting "a negative or exactly-zero root is never returned
as the distance" (the code's guard is `t0 < 0.0`, not `t0 <= 0.0`). -/
theorem sphere_zero_distance_cex :
    (Sphere.intersect { position := ⟨0, 0, 0⟩, radius := 1 }
      ⟨⟨1, 0, 0⟩, ⟨-1, 0, 0⟩⟩).map Hit.distance = some 0 := by
  rw [Sphere.intersect]
  norm_num [Vec3.dot, Ray.point_at_distance, sqrt_four]

/-- Claim C2 (amended): when the discriminant is positive, with roots
`t0 = (-b - √disc)/(2a)` and `t1 = (-b + √disc)/(2a)`: if both are negative
the result is `None`; otherwise the returned distance is `t0` if `t0` is
non-negative, else `t1`, and this distance is the minimum NON-NEGATIVE
root (zero included — a strictly negative root is never returned, but an
exactly-zero `t0` is). -/
theorem sphere_intersect_min_nonneg_root (sp : Sphere) (ray : Ray) (a b t0 t1 : ℝ)
    (ha : a = ray.direction.dot ray.direction)
    (hb : b = 2 * ((ray.origin - sp.position).dot ray.direction))
    (hdisc : 0 < sphereDiscriminant sp ray)
    (ht0 : t0 = (-b - Real.sqrt (sphereDiscriminant sp ray)) / (2 * a))
    (ht1 : t1 = (-b + Real.sqrt (sphereDiscriminant sp ray)) / (2 * a)) :
    (t0 < 0 ∧ t1 < 0 → sp.intersect ray = none) ∧
    (¬(t0 < 0 ∧ t1 < 0) →
      ∃ nrm, sp.intersect ray = some ⟨if t0 < 0 then t1 else t0, nrm⟩ ∧
        0 ≤ (if t0 < 0 then t1 else t0) ∧
        (∀ t, (t = t0 ∨ t = t1) → 0 ≤ t → (if t0 < 0 then t1 else t0) ≤ t)) := by
  have hform := sphere_intersect_disc_pos_form sp ray a b t0 t1 ha hb hdisc ht0 ht1
  have hapos : 0 < a := by
    rcases lt_or_eq_of_le (ha ▸ dot_self_nonneg ray.direction : 0 ≤ a) with hlt | heq
    · exact hlt
    · exfalso
      have hdot0 : ray.direction.dot ray.direction = 0 := by rw [← ha, ← heq]
      have h0 : ray.direction.x * ray.direction.x + ray.direction.y * ray.direction.y +
          ray.direction.z * ray.direction.z = 0 := by simpa [Vec3.dot] using hdot0
      have hx : ray.direction.x = 0 := mul_self_eq_zero.mp (le_antisymm
        (by nlinarith [mul_self_nonneg ray.direction.y, mul_self_nonneg ray.direction.z])
        (mul_self_nonneg _))
      have hy : ray.direction.y = 0 := mul_self_eq_zero.mp (le_antisymm
        (by nlinarith [mul_self_nonneg ray.direction.x, mul_self_nonneg ray.direction.z])
        (mul_self_nonneg _))
      have hz : ray.direction.z = 0 := mul_self_eq_zero.mp (le_antisymm
        (by nlinarith [mul_self_nonneg ray.direction.x, mul_self_nonneg ray.direction.y])
        (mul_self_nonneg _))
      have hzero : sphereDiscriminant sp ray = 0 := by
        simp only [sphereDiscriminant, Vec3.dot, hx, hy, hz]
        ring
      linarith [hdisc]
  have hsq : 0 ≤ Real.sqrt (sphereDiscriminant sp ray) := Real.sqrt_nonneg _
  have ht01 : t0 ≤ t1 := by
    rw [ht0, ht1, div_le_div_iff_of_pos_right (by linarith : (0 : ℝ) < 2 * a)]
    linarith [hsq]
  constructor
  · intro hneg
    rw [hform, if_pos hneg]
  · intro hneg
    refine ⟨_, by rw [hform, if_neg hneg], ?_, ?_⟩
    · by_cases h0 : t0 < 0
      · rw [if_pos h0]
        rcases not_and_or.mp hneg with hcon | h1
        · exact absurd h0 hcon
        · exact not_lt.mp h1
      · rw [if_neg h0]
        exact not_lt.mp h0
    · intro t ht h0t
      rcases ht with rfl | rfl
      · by_cases h0 : t < 0
        · exact absurd h0 (not_lt.mpr h0t)
        · rw [if_neg h0]
      · by_cases h0 : t0 < 0
        · rw [if_pos h0]
        · rw [if_neg h0]
          exact ht01

/-- Witness for C2 at a ray starting inside the unit sphere
(`a = 1`, `b = 0`, `t0 = -1`, `t1 = 1`): the returned distance is `t1 = 1`. -/
theorem sphere_intersect_min_nonneg_root_witness :
    0 < sphereDiscriminant { position := ⟨0, 0, 0⟩, radius := 1 } ⟨⟨0, 0, 0⟩, ⟨1, 0, 0⟩⟩ ∧
    (((-1 : ℝ) < 0 ∧ (1 : ℝ) < 0 →
        Sphere.intersect { position := ⟨0, 0, 0⟩, radius := 1 } ⟨⟨0, 0, 0⟩, ⟨1, 0, 0⟩⟩ = none) ∧
      (¬((-1 : ℝ) < 0 ∧ (1 : ℝ) < 0) →
        ∃ nrm, Sphere.intersect { position := ⟨0, 0, 0⟩, radius := 1 } ⟨⟨0, 0, 0⟩, ⟨1, 0, 0⟩⟩ =
            some ⟨if (-1 : ℝ) < 0 then (1 : ℝ) else (-1 : ℝ), nrm⟩ ∧
          0 ≤ (if (-1 : ℝ) < 0 then (1 : ℝ) else (-1 : ℝ)) ∧
          (∀ t, (t = (-1 : ℝ) ∨ t = (1 : ℝ)) → 0 ≤ t →
            (if (-1 : ℝ) < 0 then (1 : ℝ) else (-1 : ℝ)) ≤ t))) :=
  ⟨by norm_num [sphereDiscriminant, Vec3.dot],
   sphere_intersect_min_nonneg_root { position := ⟨0, 0, 0⟩, radius := 1 }
     ⟨⟨0, 0, 0⟩, ⟨1, 0, 0⟩⟩ 1 0 (-1) 1
     (by norm_num [Vec3.dot])
     (by norm_num [Vec3.dot])
     (by norm_num [sphereDiscriminant, Vec3.dot])
     (by norm_num [sphereDiscriminant, Vec3.dot, sqrt_four])
     (by norm_num [sphereDiscriminant, Vec3.dot, sqrt_four])⟩

/-- Claim C3: a non-positive discriminant (tangency included) yields no hit,
and a hit can only be reported when the discriminant is strictly positive. -/
theorem sphere_intersect_tangent_policy (sp : Sphere) (ray : Ray) :
    (sphereDiscriminant sp ray ≤ 0 → sp.intersect ray = none) ∧
    (∀ h, sp.intersect ray = some h → 0 < sphereDiscriminant sp ray) :=
  ⟨sphere_intersect_none_of_disc_nonpos sp ray,
   fun h hs => sphere_intersect_some_disc_pos sp ray h hs⟩

/-- Witness for C3 at an exactly tangent ray (discriminant `= 0`):
origin `(1,0,-2)`, direction `(0,0,1)`, unit sphere at the origin. -/
theorem sphere_intersect_tangent_policy_witness :
    sphereDiscriminant { position := ⟨0, 0, 0⟩, radius := 1 } ⟨⟨1, 0, -2⟩, ⟨0, 0, 1⟩⟩ ≤ 0 ∧
    Sphere.intersect { position := ⟨0, 0, 0⟩, radius := 1 } ⟨⟨1, 0, -2⟩, ⟨0, 0, 1⟩⟩ = none :=
  ⟨by norm_num [sphereDiscriminant, Vec3.dot],
   (sphere_intersect_tangent_policy { position := ⟨0, 0, 0⟩, radius := 1 }
     ⟨⟨1, 0, -2⟩, ⟨0, 0, 1⟩⟩).1 (by norm_num [sphereDiscriminant, Vec3.dot])⟩

/-- Claim C4 counterexample: at `sceneC4`/`rayW` the code's trace is black
(the shadow direction computed from the BIASED point has a non-positive
Lambert factor), while the claim's formula — shadow direction from the
UNBIASED hit point — predicts a strictly positive contribution; the two
disagree. -/
theorem trace_unbiased_direction_cex : sceneC4.trace rayW ≠ specTrace sceneC4 rayW := by
  intro heq
  have h0 : (specTrace sceneC4 rayW).x = 0 := by
    rw [← heq, traceC4_eval]
  exact ne_of_gt specTraceC4_pos h0

/-- Claim C4 (amended): on a primary hit, the traced colour is the sum over
lights of: zero when the scene reports any hit for the shadow ray whose
origin AND direction both come from the biased point
`hitPoint + SHADOW_BIAS * normal`; otherwise
`max 0 (normal ⬝ lightDir) * material.color * light.intensity`, with
`lightDir = normalize (light.position - biasedPoint)`. -/
theorem trace_per_light_shading (s : Scene) (ray : Ray) (h : Hit) (o : Object)
    (hs : s.intersect ray = some (h, o)) :
    s.trace ray = vsum (s.lights.map fun light =>
      if (s.intersect ⟨ray.point_at_distance h.distance + Vec3.smul SHADOW_BIAS h.normal,
          Vec3.normalize (light.position -
            (ray.point_at_distance h.distance + Vec3.smul SHADOW_BIAS h.normal))⟩).isSome then
        (⟨0, 0, 0⟩ : Vec3)
      else
        Vec3.smul light.intensity
          (Vec3.smul
            (max 0 (h.normal.dot (Vec3.normalize (light.position -
              (ray.point_at_distance h.distance + Vec3.smul SHADOW_BIAS h.normal)))))
            o.material.color)) :=
  trace_of_intersect_some s ray h o hs

/-- Witness for the amended C4 at `sceneC4`/`rayW`. -/
theorem trace_per_light_shading_witness :
    sceneC4.intersect rayW = some (hitW, objW) ∧
    sceneC4.trace rayW = vsum (sceneC4.lights.map fun light =>
      if (sceneC4.intersect ⟨rayW.point_at_distance hitW.distance +
            Vec3.smul SHADOW_BIAS hitW.normal,
          Vec3.normalize (light.position -
            (rayW.point_at_distance hitW.distance +
              Vec3.smul SHADOW_BIAS hitW.normal))⟩).isSome then
        (⟨0, 0, 0⟩ : Vec3)
      else
        Vec3.smul light.intensity
          (Vec3.smul
            (max 0 (hitW.normal.dot (Vec3.normalize (light.position -
              (rayW.point_at_distance hitW.distance +
                Vec3.smul SHADOW_BIAS hitW.normal)))))
            objW.material.color)) :=
  ⟨sceneC4_intersect, trace_per_light_shading sceneC4 rayW hitW objW sceneC4_intersect⟩

/-- Claim C5: shading is purely additive across lights — over the same
objects, tracing with lights `[L1, L2]` equals the componentwise sum of
tracing with `[L1]` alone and `[L2]` alone (the primary hit and the
occlusion tests read only the object list, so they agree automatically). -/
theorem trace_additive_lights (objs : List Object) (cam : Camera) (L1 L2 : Light)
    (ray : Ray) :
    Scene.trace ⟨objs, cam, [L1, L2]⟩ ray =
      Scene.trace ⟨objs, cam, [L1]⟩ ray + Scene.trace ⟨objs, cam, [L2]⟩ ray := by
  rcases hI : Scene.intersect ⟨objs, cam, [L1, L2]⟩ ray with _ | ⟨h, o⟩
  · rw [trace_of_intersect_none _ _ hI,
      trace_of_intersect_none ⟨objs, cam, [L1]⟩ ray hI,
      trace_of_intersect_none ⟨objs, cam, [L2]⟩ ray hI]
    apply Vec3.ext_comp <;> simp
  · rw [trace_of_intersect_some _ _ h o hI,
      trace_of_intersect_some ⟨objs, cam, [L1]⟩ ray h o hI,
      trace_of_intersect_some ⟨objs, cam, [L2]⟩ ray h o hI]
    exact vsum_map_two _ _ _ (fun _ => rfl) (fun _ => rfl) L1 L2

/-- Claim C6 (amended): the byte conversion `(c * 255.0) as u8` is a
SATURATING cast: a value whose scaled floor is in range is stored as
`⌊c * 255⌋`, and any value with `c * 255 ≥ 256` is stored as 255 (clamped,
not wrapped). -/
theorem channel_conversion_saturates :
    (∀ c : ℝ, 0 ≤ c → c * 255 < 256 → channelByte c = (⌊c * 255⌋).toNat) ∧
    (∀ c : ℝ, 256 ≤ c * 255 → channelByte c = 255) := by
  constructor
  · intro c _ hlt
    rw [channelByte, as_u8]
    have hfloor : ⌊c * 255⌋ ≤ 255 := by
      have h256 : ⌊c * 255⌋ < 256 := Int.floor_lt.mpr (by exact_mod_cast hlt)
      omega
    rw [min_eq_right hfloor]
  · intro c hc
    rw [channelByte, as_u8]
    have hfloor : (256 : ℤ) ≤ ⌊c * 255⌋ := Int.le_floor.mpr (by exact_mod_cast hc)
    rw [min_eq_left (by omega)]
    rfl

/-- Witness for the amended C6 at `c = 1/2` (in range) and `c = 2`
(saturates at 255). -/
theorem channel_conversion_saturates_witness :
    ((0 : ℝ) ≤ 1 / 2 ∧ (1 / 2 : ℝ) * 255 < 256 ∧
      channelByte (1 / 2) = (⌊(1 / 2 : ℝ) * 255⌋).toNat) ∧
    ((256 : ℝ) ≤ 2 * 255 ∧ channelByte 2 = 255) :=
  ⟨⟨by norm_num, by norm_num,
     channel_conversion_saturates.1 (1 / 2) (by norm_num) (by norm_num)⟩,
   ⟨by norm_num, channel_conversion_saturates.2 2 (by norm_num)⟩⟩

/-- Claim C6 counterexample: at component value 2 the code stores 255
(saturating float-to-int `as` cast), whereas the claimed wrapping/truncating
conversion would store `510 mod 256 = 254`. -/
theorem channel_conversion_wrap_cex : channelByte 2 ≠ specWrapByte 2 := by
  have h510 : ⌊(2 : ℝ) * 255⌋ = 510 := by
    rw [show (2 : ℝ) * 255 = ((510 : ℤ) : ℝ) by norm_num, Int.floor_intCast]
  rw [channelByte, as_u8, specWrapByte, h510]
  decide

/-! ## The camera mapping at the centre pixel -/

theorem camApply_zero (eye target up : Vec3) :
    camApply eye target up ⟨0, 0, 0⟩ = eye := by
  rw [camApply]
  apply Vec3.ext_comp <;> simp

theorem camApply_sub_zero (eye target up : Vec3) (p : Vec3) :
    camApply eye target up p - camApply eye target up ⟨0, 0, 0⟩ =
      Vec3.smul p.x (faceTowards eye target up).1 +
        Vec3.smul p.y (faceTowards eye target up).2.1 +
        Vec3.smul p.z (faceTowards eye target up).2.2 := by
  rw [camApply, camApply]
  apply Vec3.ext_comp <;> simp <;> ring

theorem normalize_unit_x : Vec3.normalize ⟨1, 0, 0⟩ = (⟨1, 0, 0⟩ : Vec3) := by
  apply Vec3.ext_comp <;> norm_num [Vec3.norm, Vec3.dot, Real.sqrt_one]

theorem normalize_unit_y : Vec3.normalize ⟨0, 1, 0⟩ = (⟨0, 1, 0⟩ : Vec3) := by
  apply Vec3.ext_comp <;> norm_num [Vec3.norm, Vec3.dot, Real.sqrt_one]

theorem normalize_unit_z : Vec3.normalize ⟨0, 0, 1⟩ = (⟨0, 0, 1⟩ : Vec3) := by
  apply Vec3.ext_comp <;> norm_num [Vec3.norm, Vec3.dot, Real.sqrt_one]

theorem faceTowardsC7 :
    faceTowards camC7.position camC7.look_at ⟨0, 1, 0⟩ =
      ((⟨1, 0, 0⟩ : Vec3), (⟨0, 1, 0⟩ : Vec3), (⟨0, 0, 1⟩ : Vec3)) := by
  have hsub : camC7.look_at - camC7.position = (⟨0, 0, 1⟩ : Vec3) := by
    apply Vec3.ext_comp <;> norm_num [camC7]
  simp only [faceTowards, hsub, normalize_unit_z]
  have hcx : Vec3.cross ⟨0, 1, 0⟩ ⟨0, 0, 1⟩ = (⟨1, 0, 0⟩ : Vec3) := by
    apply Vec3.ext_comp <;> norm_num [Vec3.cross]
  rw [hcx, normalize_unit_x]
  have hcy : Vec3.cross ⟨0, 0, 1⟩ ⟨1, 0, 0⟩ = (⟨0, 1, 0⟩ : Vec3) := by
    apply Vec3.ext_comp <;> norm_num [Vec3.cross]
  rw [hcy, normalize_unit_y]

/-- Claim C7 (amended): for even `width = 2k`, `height = 2m`, the primary
ray of pixel `(width/2, height/2)` has origin exactly the camera position,
but its direction is the normalised image of the screen point
`(aspect * fovAdjust / width, -fovAdjust / height, 1)` in the camera frame
— offset half a pixel from the look-at axis, and dependent on `width` and
`height`; it equals `normalize (look_at - position)` only when those offset
terms vanish. -/
theorem center_pixel_ray (k m : ℕ) (hk : 0 < k) (hm : 0 < m) (fa asp : ℝ) (cam : Camera) :
    (pixelRay (2 * k) (2 * m) fa asp cam ((2 * k) / 2) ((2 * m) / 2)).origin = cam.position ∧
    (pixelRay (2 * k) (2 * m) fa asp cam ((2 * k) / 2) ((2 * m) / 2)).direction =
      Vec3.normalize
        (Vec3.smul (asp * fa / ((2 * k : ℕ) : ℝ)) (faceTowards cam.position cam.look_at ⟨0, 1, 0⟩).1 +
          Vec3.smul (-(fa / ((2 * m : ℕ) : ℝ))) (faceTowards cam.position cam.look_at ⟨0, 1, 0⟩).2.1 +
          (faceTowards cam.position cam.look_at ⟨0, 1, 0⟩).2.2) := by
  have hpx : (2 * k) / 2 = k := Nat.mul_div_cancel_left k (by norm_num)
  have hpy : (2 * m) / 2 = m := Nat.mul_div_cancel_left m (by norm_num)
  have hkR : ((k : ℕ) : ℝ) ≠ 0 := Nat.cast_ne_zero.mpr (Nat.pos_iff_ne_zero.mp hk)
  have hmR : ((m : ℕ) : ℝ) ≠ 0 := Nat.cast_ne_zero.mpr (Nat.pos_iff_ne_zero.mp hm)
  rw [hpx, hpy]
  simp only [pixelRay]
  constructor
  · exact camApply_zero _ _ _
  · have hsx : (2 * ((((k : ℕ) : ℝ) + 0.5) / (((2 * k : ℕ)) : ℝ)) - 1) * asp * fa =
        asp * fa / (((2 * k : ℕ)) : ℝ) := by
      have he : (((2 * k : ℕ)) : ℝ) = 2 * ((k : ℕ) : ℝ) := by push_cast; ring
      rw [he]
      have h2k : 2 * ((k : ℕ) : ℝ) ≠ 0 := by simp [hkR]
      rw [eq_div_iff h2k]
      field_simp
      left
      ring
    have hsy : (1 - 2 * ((((m : ℕ) : ℝ) + 0.5) / (((2 * m : ℕ)) : ℝ))) * fa =
        -(fa / (((2 * m : ℕ)) : ℝ)) := by
      have he : (((2 * m : ℕ)) : ℝ) = 2 * ((m : ℕ) : ℝ) := by push_cast; ring
      rw [he]
      have h2m : 2 * ((m : ℕ) : ℝ) ≠ 0 := by simp [hmR]
      field_simp
      ring
    rw [camApply_sub_zero]
    congr 1
    apply Vec3.ext_comp
    · simp only [add_x, smul_x]
      linear_combination (faceTowards cam.position cam.look_at ⟨0, 1, 0⟩).1.x * hsx +
        (faceTowards cam.position cam.look_at ⟨0, 1, 0⟩).2.1.x * hsy
    · simp only [add_y, smul_y]
      linear_combination (faceTowards cam.position cam.look_at ⟨0, 1, 0⟩).1.y * hsx +
        (faceTowards cam.position cam.look_at ⟨0, 1, 0⟩).2.1.y * hsy
    · simp only [add_z, smul_z]
      linear_combination (faceTowards cam.position cam.look_at ⟨0, 1, 0⟩).1.z * hsx +
        (faceTowards cam.position cam.look_at ⟨0, 1, 0⟩).2.1.z * hsy

/-- Witness for the amended C7 at `width = height = 2`, `fovAdjust = 1`,
`aspect = 1`, camera `camC7`. -/
theorem center_pixel_ray_witness :
    0 < 1 ∧
    (pixelRay (2 * 1) (2 * 1) 1 1 camC7 ((2 * 1) / 2) ((2 * 1) / 2)).origin = camC7.position ∧
    (pixelRay (2 * 1) (2 * 1) 1 1 camC7 ((2 * 1) / 2) ((2 * 1) / 2)).direction =
      Vec3.normalize
        (Vec3.smul ((1 : ℝ) * 1 / ((2 * 1 : ℕ) : ℝ))
            (faceTowards camC7.position camC7.look_at ⟨0, 1, 0⟩).1 +
          Vec3.smul (-((1 : ℝ) / ((2 * 1 : ℕ) : ℝ)))
            (faceTowards camC7.position camC7.look_at ⟨0, 1, 0⟩).2.1 +
          (faceTowards camC7.position camC7.look_at ⟨0, 1, 0⟩).2.2) :=
  ⟨by norm_num, (center_pixel_ray 1 1 (by norm_num) (by norm_num) 1 1 camC7).1,
   (center_pixel_ray 1 1 (by norm_num) (by norm_num) 1 1 camC7).2⟩

/-- Claim C7 counterexample: at `width = height = 2`, `fovAdjust = 1`,
`aspect = 1`, the ray of the centre pixel `(1, 1)` does NOT point toward
`look_at`: its direction is `normalize (1/2, -1/2, 1)`, whose `x` component
is strictly positive, while `normalize (look_at - position) = (0,0,1)` has
`x = 0` — the half-pixel offset makes the direction depend on the
resolution. -/
theorem center_pixel_ray_cex :
    (pixelRay 2 2 1 1 camC7 1 1).direction ≠
      Vec3.normalize (camC7.look_at - camC7.position) := by
  intro heq
  have hL : (pixelRay 2 2 1 1 camC7 1 1).direction =
      Vec3.normalize ⟨1 / 2, -1 / 2, 1⟩ := by
    simp only [pixelRay]
    congr 1
    rw [camApply_sub_zero, faceTowardsC7]
    apply Vec3.ext_comp <;> norm_num
  have hR : Vec3.normalize (camC7.look_at - camC7.position) = (⟨0, 0, 1⟩ : Vec3) := by
    have hsub : camC7.look_at - camC7.position = (⟨0, 0, 1⟩ : Vec3) := by
      apply Vec3.ext_comp <;> norm_num [camC7]
    rw [hsub, normalize_unit_z]
  rw [hL, hR] at heq
  have hx := congrArg Vec3.x heq
  simp only [normalize_x] at hx
  have hnorm : 0 < Vec3.norm ⟨1 / 2, -1 / 2, 1⟩ := by
    rw [Vec3.norm]
    apply Real.sqrt_pos.mpr
    norm_num [Vec3.dot]
  have hpos : (0 : ℝ) < (⟨1 / 2, -1 / 2, 1⟩ : Vec3).x / Vec3.norm ⟨1 / 2, -1 / 2, 1⟩ := by
    apply div_pos _ hnorm
    norm_num
  rw [hx] at hpos
  norm_num at hpos

/-- Claim C8 (code bug): over the NaN-aware `f32` model, a ray whose
direction is NaN — e.g. from normalising the zero vector when the camera
position equals its look-at target — makes `Sphere::intersect` RETURN a
hit with NaN distance (each comparison on NaN is false, so the code falls
through every guard), and on a scene with two such objects
`Scene::intersect` then PANICS in `partial_cmp(..).unwrap()` instead of
returning a value. -/
theorem sceneF_intersect_nan_panics :
    SceneF.intersect [sphereFA, sphereFB] nanRayF = PanicOr.panicked ∧
    (SphereF.intersect sphereFA nanRayF).isSome = true ∧
    (SphereF.intersect sphereFB nanRayF).isSome = true := by
  refine ⟨?_, ?_, ?_⟩ <;> rfl

/-! ## The render loop fills the buffer row-major, one pixel at a time -/

@[simp] theorem rowsConcat_zero (f : ℕ → List ℕ) (a : ℕ) : rowsConcat f a 0 = [] := rfl

@[simp] theorem rowsConcat_succ (f : ℕ → List ℕ) (a n : ℕ) :
    rowsConcat f a (n + 1) = f a ++ rowsConcat f (a + 1) n := rfl

theorem rowsConcat_length (f : ℕ → List ℕ) (L : ℕ) (hf : ∀ i, (f i).length = L) :
    ∀ n a, (rowsConcat f a n).length = n * L := by
  intro n
  induction n with
  | zero => intro a; simp
  | succ n ih =>
    intro a
    simp only [rowsConcat_succ, List.length_append, hf, ih]
    ring

theorem rowsConcat_get (f : ℕ → List ℕ) (L : ℕ) (hf : ∀ i, (f i).length = L) :
    ∀ n a i r, i < n → r < L →
      (rowsConcat f a n).get? (i * L + r) = (f (a + i)).get? r := by
  intro n
  induction n with
  | zero => intro a i r hi _; exact absurd hi (Nat.not_lt_zero i)
  | succ n ih =>
    intro a i r hi hr
    rw [rowsConcat_succ]
    cases i with
    | zero =>
      rw [List.get?_append (by rw [hf]; simpa using hr)]
      simp
    | succ i =>
      have hsm : (i + 1) * L = i * L + L := by ring
      have hlen : (f a).length ≤ (i + 1) * L + r := by
        rw [hf, hsm]
        omega
      rw [List.get?_append_right hlen]
      have harith : (i + 1) * L + r - (f a).length = i * L + r := by
        rw [hf, hsm]
        omega
      rw [harith]
      have hih := ih (a + 1) i r (by omega) hr
      rw [show a + 1 + i = a + (i + 1) by omega] at hih
      exact hih

theorem list_set3 (P : List ℕ) (b0 b1 b2 : ℕ) (rest : List ℕ) (v0 v1 v2 : ℕ) :
    (((P ++ b0 :: b1 :: b2 :: rest).set P.length v0).set (P.length + 1) v1).set
        (P.length + 2) v2 = P ++ v0 :: v1 :: v2 :: rest := by
  induction P with
  | nil => simp [List.set]
  | cons a t ih =>
    simp only [List.cons_append, List.length_cons, List.set_cons_succ]
    rw [show t.length + 1 + 1 = t.length + 2 by omega, ih]

theorem writePixel_at (s : Scene) (W H : ℕ) (fa asp : ℝ) (x y : ℕ) (P rest : List ℕ)
    (hP : P.length = (y * W + x) * 3) (b0 b1 b2 : ℕ) :
    writePixel s W H fa asp (P ++ b0 :: b1 :: b2 :: rest) x y =
      P ++ channelByte (pixelColor s W H fa asp x y).x ::
        channelByte (pixelColor s W H fa asp x y).y ::
        channelByte (pixelColor s W H fa asp x y).z :: rest := by
  simp only [writePixel]
  rw [← hP]
  exact list_set3 P b0 b1 b2 rest _ _ _

theorem row_fold_fill (s : Scene) (W H : ℕ) (fa asp : ℝ) (y : ℕ) :
    ∀ (n x : ℕ) (P tail : List ℕ), P.length = (y * W + x) * 3 →
      (List.range' x n).foldl (fun b xx => writePixel s W H fa asp b xx y)
          (P ++ (List.replicate (n * 3) 0 ++ tail)) =
        P ++ (rowsConcat (fun xx => pixelBytes s W H fa asp xx y) x n ++ tail) := by
  intro n
  induction n with
  | zero => intro x P tail _; simp
  | succ n ih =>
    intro x P tail hP
    have hrep : List.replicate ((n + 1) * 3) (0 : ℕ) =
        0 :: 0 :: 0 :: List.replicate (n * 3) 0 := by
      rw [show (n + 1) * 3 = n * 3 + 1 + 1 + 1 by ring]
      simp [List.replicate_succ]
    rw [List.range'_succ, List.foldl_cons, hrep, List.cons_append, List.cons_append,
      List.cons_append]
    rw [writePixel_at s W H fa asp x y P _ hP 0 0 0]
    have hre : P ++ channelByte (pixelColor s W H fa asp x y).x ::
        channelByte (pixelColor s W H fa asp x y).y ::
        channelByte (pixelColor s W H fa asp x y).z :: (List.replicate (n * 3) 0 ++ tail) =
        (P ++ pixelBytes s W H fa asp x y) ++ (List.replicate (n * 3) 0 ++ tail) := by
      simp [pixelBytes]
    rw [hre]
    have hP' : (P ++ pixelBytes s W H fa asp x y).length = (y * W + (x + 1)) * 3 := by
      rw [List.length_append, hP, pixelBytes]
      simp only [List.length_cons, List.length_nil]
      ring
    rw [ih (x + 1) (P ++ pixelBytes s W H fa asp x y) tail hP']
    simp [pixelBytes]

theorem render_fold_fill (s : Scene) (W H : ℕ) (fa asp : ℝ) :
    ∀ (n y : ℕ) (Q : List ℕ), Q.length = y * (W * 3) →
      (List.range' y n).foldl
          (fun b yy => (List.range W).foldl
            (fun b2 xx => writePixel s W H fa asp b2 xx yy) b)
          (Q ++ List.replicate (n * (W * 3)) 0) =
        Q ++ rowsConcat (fun yy => rowsConcat (fun xx => pixelBytes s W H fa asp xx yy) 0 W)
          y n := by
  intro n
  induction n with
  | zero => intro y Q _; simp
  | succ n ih =>
    intro y Q hQ
    have hrep : List.replicate ((n + 1) * (W * 3)) (0 : ℕ) =
        List.replicate (W * 3) 0 ++ List.replicate (n * (W * 3)) 0 := by
      rw [← List.replicate_add]
      congr 1
      ring
    rw [List.range'_succ, List.foldl_cons, hrep]
    simp only [List.range_eq_range']
    have hQ0 : Q.length = (y * W + 0) * 3 := by rw [hQ]; ring
    have hrow := row_fold_fill s W H fa asp y W 0 Q (List.replicate (n * (W * 3)) 0) hQ0
    rw [hrow]
    have hQ' : (Q ++ rowsConcat (fun xx => pixelBytes s W H fa asp xx y) 0 W).length =
        (y + 1) * (W * 3) := by
      rw [List.length_append, hQ,
        rowsConcat_length (fun xx => pixelBytes s W H fa asp xx y) 3 (fun _ => rfl) W 0]
      ring
    have hfin := ih (y + 1) (Q ++ rowsConcat (fun xx => pixelBytes s W H fa asp xx y) 0 W) hQ'
    simp only [List.range_eq_range'] at hfin
    rw [List.append_assoc] at hfin
    rw [hfin]
    simp

theorem render_eq_rows (s : Scene) (W H : ℕ) (fa asp : ℝ) :
    render s W H fa asp =
      rowsConcat (fun yy => rowsConcat (fun xx => pixelBytes s W H fa asp xx yy) 0 W) 0 H := by
  rw [render, show List.range H = List.range' 0 H from List.range_eq_range' H,
    show W * H * 3 = H * (W * 3) by ring]
  exact render_fold_fill s W H fa asp H 0 [] (by simp)

/-- Claim C9: the render loop is deterministic and per-pixel independent —
the finished buffer has length `width * height * 3`, and the three bytes in
pixel `(x, y)`'s slot are a pure function (`pixelColor`/`channelByte`) of
the immutable scene, the resolution/fov parameters, and `(x, y)` alone; the
buffer equals the row-major concatenation of these per-pixel values, so the
result is independent of the order in which pixels are evaluated. -/
theorem render_pixel_independent (s : Scene) (W H : ℕ) (fa asp : ℝ) (x y : ℕ)
    (hx : x < W) (hy : y < H) :
    (render s W H fa asp).length = W * H * 3 ∧
    (render s W H fa asp).get? ((y * W + x) * 3) =
      some (channelByte (pixelColor s W H fa asp x y).x) ∧
    (render s W H fa asp).get? ((y * W + x) * 3 + 1) =
      some (channelByte (pixelColor s W H fa asp x y).y) ∧
    (render s W H fa asp).get? ((y * W + x) * 3 + 2) =
      some (channelByte (pixelColor s W H fa asp x y).z) := by
  have hrowlen : ∀ yy,
      (rowsConcat (fun xx => pixelBytes s W H fa asp xx yy) 0 W).length = W * 3 :=
    fun yy => rowsConcat_length (fun xx => pixelBytes s W H fa asp xx yy) 3 (fun _ => rfl) W 0
  have hget : ∀ c, c < 3 → (render s W H fa asp).get? ((y * W + x) * 3 + c) =
      (pixelBytes s W H fa asp x y).get? c := by
    intro c hc
    rw [render_eq_rows]
    rw [show (y * W + x) * 3 + c = y * (W * 3) + (x * 3 + c) by ring]
    rw [rowsConcat_get _ (W * 3) hrowlen H 0 y (x * 3 + c) hy (by omega)]
    rw [rowsConcat_get (fun xx => pixelBytes s W H fa asp xx (0 + y)) 3 (fun _ => rfl) W 0 x c
      hx hc]
    simp
  refine ⟨?_, ?_, ?_, ?_⟩
  · rw [render_eq_rows,
      rowsConcat_length (fun yy => rowsConcat (fun xx => pixelBytes s W H fa asp xx yy) 0 W)
        (W * 3) hrowlen H 0]
    ring
  · rw [show (y * W + x) * 3 = (y * W + x) * 3 + 0 by ring, hget 0 (by omega)]
    rfl
  · rw [hget 1 (by omega)]
    rfl
  · rw [hget 2 (by omega)]
    rfl

/-- Witness for C9 at a 1×1 render of `sceneW`, pixel `(0, 0)`. -/
theorem render_pixel_independent_witness :
    (0 : ℕ) < 1 ∧
    ((render sceneW 1 1 1 1).length = 1 * 1 * 3 ∧
      (render sceneW 1 1 1 1).get? ((0 * 1 + 0) * 3) =
        some (channelByte (pixelColor sceneW 1 1 1 1 0 0).x) ∧
      (render sceneW 1 1 1 1).get? ((0 * 1 + 0) * 3 + 1) =
        some (channelByte (pixelColor sceneW 1 1 1 1 0 0).y) ∧
      (render sceneW 1 1 1 1).get? ((0 * 1 + 0) * 3 + 2) =
        some (channelByte (pixelColor sceneW 1 1 1 1 0 0).z)) :=
  ⟨by norm_num,
   render_pixel_independent sceneW 1 1 1 1 0 0 (by norm_num) (by norm_num)⟩

/-! ## Bounds on the traced colour -/

theorem object_intersect_normal_shape (o : Object) (ray : Ray) (h : Hit)
    (ho : o.intersect ray = some h) : ∃ w, h.normal = Vec3.normalize w := by
  obtain ⟨⟨sp⟩, mat⟩ := o
  exact sphere_intersect_normal_shape sp ray h ho

theorem contrib_comp_bounds (i sh c : ℝ) (hi : 0 ≤ i) (hsh0 : 0 ≤ sh) (hsh1 : sh ≤ 1)
    (hc0 : 0 ≤ c) (hc1 : c ≤ 1) : 0 ≤ i * (sh * c) ∧ i * (sh * c) ≤ i :=
  ⟨mul_nonneg hi (mul_nonneg hsh0 hc0),
   mul_le_of_le_one_right hi (mul_le_one₀ hsh1 hc0 hc1)⟩

theorem vsum_bounds (g : Light → Vec3) :
    ∀ L : List Light,
      (∀ l ∈ L, (0 ≤ (g l).x ∧ (g l).x ≤ l.intensity) ∧
        (0 ≤ (g l).y ∧ (g l).y ≤ l.intensity) ∧
        (0 ≤ (g l).z ∧ (g l).z ≤ l.intensity)) →
      (0 ≤ (vsum (L.map g)).x ∧ (vsum (L.map g)).x ≤ (L.map Light.intensity).sum) ∧
      (0 ≤ (vsum (L.map g)).y ∧ (vsum (L.map g)).y ≤ (L.map Light.intensity).sum) ∧
      (0 ≤ (vsum (L.map g)).z ∧ (vsum (L.map g)).z ≤ (L.map Light.intensity).sum) := by
  intro L
  induction L with
  | nil => intro _; simp
  | cons l t ih =>
    intro hb
    have hl := hb l (List.mem_cons_self _ _)
    have ht := ih (fun x hx => hb x (List.mem_cons_of_mem _ hx))
    simp only [List.map_cons, vsum_cons, List.sum_cons, add_x, add_y, add_z]
    refine ⟨⟨?_, ?_⟩, ⟨?_, ?_⟩, ⟨?_, ?_⟩⟩
    · linarith [hl.1.1, ht.1.1]
    · linarith [hl.1.2, ht.1.2]
    · linarith [hl.2.1.1, ht.2.1.1]
    · linarith [hl.2.1.2, ht.2.1.2]
    · linarith [hl.2.2.1, ht.2.2.1]
    · linarith [hl.2.2.2, ht.2.2.2]

/-- Claim C10: with all material colour components in `[0,1]` and all light
intensities non-negative, every component of the traced colour is
non-negative and at most the sum of all light intensities (so it may exceed
1 but is never negative), and a ray that hits nothing traces to black. -/
theorem trace_bounded (s : Scene) (ray : Ray)
    (hc : ∀ o ∈ s.objects, (0 ≤ o.material.color.x ∧ o.material.color.x ≤ 1) ∧
      (0 ≤ o.material.color.y ∧ o.material.color.y ≤ 1) ∧
      (0 ≤ o.material.color.z ∧ o.material.color.z ≤ 1))
    (hl : ∀ l ∈ s.lights, 0 ≤ l.intensity) :
    ((0 ≤ (s.trace ray).x ∧ (s.trace ray).x ≤ (s.lights.map Light.intensity).sum) ∧
      (0 ≤ (s.trace ray).y ∧ (s.trace ray).y ≤ (s.lights.map Light.intensity).sum) ∧
      (0 ≤ (s.trace ray).z ∧ (s.trace ray).z ≤ (s.lights.map Light.intensity).sum)) ∧
    (s.intersect ray = none → s.trace ray = ⟨0, 0, 0⟩) := by
  have hsum0 : (0 : ℝ) ≤ (s.lights.map Light.intensity).sum := by
    apply List.sum_nonneg
    intro i hi
    obtain ⟨l, hlmem, rfl⟩ := List.mem_map.mp hi
    exact hl l hlmem
  refine ⟨?_, fun hnone => trace_of_intersect_none s ray hnone⟩
  rcases hI : s.intersect ray with _ | ⟨h, o⟩
  · rw [trace_of_intersect_none s ray hI]
    exact ⟨⟨le_refl 0, hsum0⟩, ⟨le_refl 0, hsum0⟩, ⟨le_refl 0, hsum0⟩⟩
  · obtain ⟨os1, os2, hobj, hoint, _, _⟩ := scene_intersect_spec s ray h o hI
    have homem : o ∈ s.objects := by
      rw [hobj]
      exact List.mem_append_right _ (List.mem_cons_self _ _)
    have hcol := hc o homem
    obtain ⟨w, hw⟩ := object_intersect_normal_shape o ray h hoint
    rw [trace_of_intersect_some s ray h o hI]
    apply vsum_bounds
    intro l hlmem
    have hint := hl l hlmem
    split_ifs with hocc
    · exact ⟨⟨le_refl 0, hint⟩, ⟨le_refl 0, hint⟩, ⟨le_refl 0, hint⟩⟩
    · set dd := Vec3.normalize (l.position -
        (ray.point_at_distance h.distance + Vec3.smul SHADOW_BIAS h.normal))
      have hsh0 : 0 ≤ max 0 (h.normal.dot dd) := le_max_left _ _
      have hsh1 : max 0 (h.normal.dot dd) ≤ 1 := by
        apply max_le (by norm_num)
        rw [hw]
        exact normalize_norm_mul_dot_le_one
      simp only [smul_x, smul_y, smul_z]
      exact ⟨contrib_comp_bounds _ _ _ hint hsh0 hsh1 hcol.1.1 hcol.1.2,
        contrib_comp_bounds _ _ _ hint hsh0 hsh1 hcol.2.1.1 hcol.2.1.2,
        contrib_comp_bounds _ _ _ hint hsh0 hsh1 hcol.2.2.1 hcol.2.2.2⟩

/-- Witness for C10 at `sceneC4` (white material, one light of intensity 1)
and `rayW`. -/
theorem trace_bounded_witness :
    ((0 ≤ (sceneC4.trace rayW).x ∧
        (sceneC4.trace rayW).x ≤ (sceneC4.lights.map Light.intensity).sum) ∧
      (0 ≤ (sceneC4.trace rayW).y ∧
        (sceneC4.trace rayW).y ≤ (sceneC4.lights.map Light.intensity).sum) ∧
      (0 ≤ (sceneC4.trace rayW).z ∧
        (sceneC4.trace rayW).z ≤ (sceneC4.lights.map Light.intensity).sum)) ∧
    (sceneC4.intersect rayW = none → sceneC4.trace rayW = ⟨0, 0, 0⟩) :=
  trace_bounded sceneC4 rayW
    (by
      intro o ho
      rcases List.mem_singleton.mp ho with rfl
      norm_num [objW])
    (by
      intro l hlm
      rcases List.mem_singleton.mp hlm with rfl
      norm_num [lightC4])

end Raytrace
